import Mathlib

/-!
Verification of the account-state engine of the blockchain node
(`foundation/blockchain/database/database.go`) and the worker's peer
handling (`foundation/blockchain/worker.go`).

Go `uint64` arithmetic is modelled as `Nat` with explicit reduction
modulo `2 ^ 64` at every operation that can wrap (`add64`, `sub64`,
`mul64`).  A Go `map[AccountID]Account` read returns the zero value for a
missing key, so the account map is modelled as a total function
`AccountID → Account` whose default is the zero account; a map write is a
pointwise function update.
-/

namespace Blockchain

/-- `2 ^ 64`, the modulus of Go `uint64` arithmetic. -/
def W : Nat := 2 ^ 64

/-- Wrapping `uint64` addition (operands assumed `< W`). -/
def add64 (a b : Nat) : Nat := (a + b) % W

/-- Wrapping `uint64` subtraction (operands assumed `< W`). -/
def sub64 (a b : Nat) : Nat := (a + W - b) % W

/-- Wrapping `uint64` multiplication (operands assumed `< W`). -/
def mul64 (a b : Nat) : Nat := (a * b) % W

/-- Account identifiers; `database.AccountID` is a hex string. -/
abbrev AccountID := String

/-- `database.Account`: balance and nonce, both `uint64`. -/
structure Account where
  balance : Nat
  nonce : Nat
deriving DecidableEq

/-- The Go zero value of `Account`. -/
def Account.zero : Account := ⟨0, 0⟩

/-- The in-memory account map.  Reads of absent keys yield the zero
account, exactly as a Go map read does. -/
abbrev Accounts := AccountID → Account

/-- Map write `m[k] = a`. -/
def upd (m : Accounts) (k : AccountID) (a : Account) : Accounts :=
  fun id => if id = k then a else m id

/-- The distinct error returns of `Database.ApplyTransaction`
(each `fmt.Errorf` call site gets one constructor). -/
inductive TxErr where
  | invalidSignature
  | wrongChainID
  | selfTransfer
  | nonceTooSmall
  | insufficientFunds
deriving DecidableEq

/-- `database.BlockTx`.  The sender is recovered from the signature by
`tx.FromAccount()`; the crypto code is outside the modelled sources, so
the recovery result is carried as `fromSig : Option AccountID`
(`none` when recovery fails). -/
structure BlockTx where
  chainID : Nat
  nonce : Nat
  toID : AccountID
  value : Nat
  tip : Nat
  gasPrice : Nat
  gasUnits : Nat
  fromSig : Option AccountID
deriving DecidableEq

/-- The header fields of `database.Block` used by the database code. -/
structure BlockHeader where
  number : Nat
  beneficiaryID : AccountID
  miningReward : Nat
deriving DecidableEq

/-- `database.Block`. -/
structure Block where
  header : BlockHeader
  txs : List BlockTx
deriving DecidableEq

/-- The Go zero value of `Block`. -/
def Block.zero : Block := ⟨⟨0, "", 0⟩, []⟩

/-- `Database.ApplyTransaction` (database.go lines 138-205), translated
line by line.  The chain id of the genesis is passed as `cid`; the state
is the account map; the result pairs the post-state map with the error
return.  All `uint64` operations that can wrap go through
`add64`/`sub64`/`mul64`; the gas-fee subtraction cannot wrap because the
fee was just clamped to the balance. -/
def applyTransaction (cid : Nat) (m : Accounts) (blk : Block) (tx : BlockTx) :
    Accounts × Option TxErr :=
  match tx.fromSig with
  | none => (m, some .invalidSignature)
  | some fromID =>
    let fromA := m fromID
    let toA := m tx.toID
    let bnfcA := m blk.header.beneficiaryID
    let gasFee0 := mul64 tx.gasPrice tx.gasUnits
    let gasFee := if gasFee0 > fromA.balance then fromA.balance else gasFee0
    let from1 : Account := { fromA with balance := fromA.balance - gasFee }
    let bnfc1 : Account := { bnfcA with balance := add64 bnfcA.balance gasFee }
    let m1 := upd (upd m fromID from1) blk.header.beneficiaryID bnfc1
    if tx.chainID ≠ cid then (m1, some .wrongChainID)
    else if fromID = tx.toID then (m1, some .selfTransfer)
    else if tx.nonce ≤ from1.nonce then (m1, some .nonceTooSmall)
    else if from1.balance = 0 ∨ from1.balance < add64 tx.value tx.tip then
      (m1, some .insufficientFunds)
    else
      let from2 : Account :=
        { from1 with balance := sub64 (sub64 from1.balance tx.value) tx.tip,
                     nonce := tx.nonce }
      let to2 : Account := { toA with balance := add64 toA.balance tx.value }
      let bnfc2 : Account := { bnfc1 with balance := add64 bnfc1.balance tx.tip }
      (upd (upd (upd m1 fromID from2) tx.toID to2) blk.header.beneficiaryID bnfc2,
       none)

/-- `Database.ApplyMiningReward` (database.go lines 126-134). -/
def applyMiningReward (m : Accounts) (blk : Block) : Accounts :=
  let a := m blk.header.beneficiaryID
  upd m blk.header.beneficiaryID
    { a with balance := add64 a.balance blk.header.miningReward }

/-- An account with an exact (unbounded) integer balance, for reading the
arithmetic of `ApplyTransaction` over exact integers. -/
structure AccountZ where
  balance : Int
  nonce : Nat
deriving DecidableEq

/-- Account map with exact integer balances. -/
abbrev AccountsZ := AccountID → AccountZ

/-- Map write for `AccountsZ`. -/
def updZ (m : AccountsZ) (k : AccountID) (a : AccountZ) : AccountsZ :=
  fun id => if id = k then a else m id

/-- View a `uint64` account as an exact-integer account. -/
def Account.toZ (a : Account) : AccountZ := ⟨(a.balance : Int), a.nonce⟩

/-- `Database.ApplyTransaction` with every arithmetic operation read as
exact (unbounded) integer arithmetic instead of wrapping `uint64`
arithmetic; the control flow is identical to `applyTransaction`. -/
def applyTransactionExact (cid : Nat) (m : AccountsZ) (blk : Block) (tx : BlockTx) :
    AccountsZ × Option TxErr :=
  match tx.fromSig with
  | none => (m, some .invalidSignature)
  | some fromID =>
    let fromA := m fromID
    let toA := m tx.toID
    let bnfcA := m blk.header.beneficiaryID
    let gasFee0 : Int := (tx.gasPrice : Int) * (tx.gasUnits : Int)
    let gasFee := if gasFee0 > fromA.balance then fromA.balance else gasFee0
    let from1 : AccountZ := { fromA with balance := fromA.balance - gasFee }
    let bnfc1 : AccountZ := { bnfcA with balance := bnfcA.balance + gasFee }
    let m1 := updZ (updZ m fromID from1) blk.header.beneficiaryID bnfc1
    if tx.chainID ≠ cid then (m1, some .wrongChainID)
    else if fromID = tx.toID then (m1, some .selfTransfer)
    else if tx.nonce ≤ from1.nonce then (m1, some .nonceTooSmall)
    else if from1.balance = 0 ∨ from1.balance < (tx.value : Int) + (tx.tip : Int) then
      (m1, some .insufficientFunds)
    else
      let from2 : AccountZ :=
        { from1 with balance := from1.balance - (tx.value : Int) - (tx.tip : Int),
                     nonce := tx.nonce }
      let to2 : AccountZ := { toA with balance := toA.balance + (tx.value : Int) }
      let bnfc2 : AccountZ := { bnfc1 with balance := bnfc1.balance + (tx.tip : Int) }
      (updZ (updZ (updZ m1 fromID from2) tx.toID to2) blk.header.beneficiaryID bnfc2,
       none)

/-- The post-state described by the spec for a successful transaction
(spec section 4.1, steps 3-8, as quoted by claim C1), carried out as
sequential exact-arithmetic updates of the account map: the sender is
debited the clamped gas fee, then debited `value` and `tip` and has its
nonce set; the recipient is credited `value`; the beneficiary is credited
the gas fee plus the tip. -/
def specApplySteps (m : Accounts) (fromID : AccountID) (blk : Block) (tx : BlockTx) :
    Accounts :=
  let g := min (tx.gasPrice * tx.gasUnits) (m fromID).balance
  let m1 := upd m fromID { m fromID with balance := (m fromID).balance - g }
  let m2 := upd m1 fromID
    { m1 fromID with balance := (m1 fromID).balance - tx.value - tx.tip,
                     nonce := tx.nonce }
  let m3 := upd m2 tx.toID
    { m2 tx.toID with balance := (m2 tx.toID).balance + tx.value }
  upd m3 blk.header.beneficiaryID
    { m3 blk.header.beneficiaryID with
        balance := (m3 blk.header.beneficiaryID).balance + g + tx.tip }

/-- Sum of the balances of the accounts named by `ids`. -/
def sumBal (m : Accounts) (ids : List AccountID) : Nat :=
  (ids.map fun id => (m id).balance).sum

/-- Sequential application of a list of transactions (with their blocks),
keeping the post-state of each call whether or not it errors, exactly as
the startup replay loop in `Database.New` does. -/
def applyList (cid : Nat) : Accounts → List (Block × BlockTx) → Accounts
  | m, [] => m
  | m, (blk, tx) :: rest => applyList cid (applyTransaction cid m blk tx).1 rest

/-!
`Database.ReadAllBlocks` (database.go lines 230-252).  The storage
iterator (`Iterator.Next/Done`) yields a sequence of `(Block, error)`
pairs and then reports `Done`; a run of the iterator is modelled by the
list `items` of pairs produced by the `Next` calls made before `Done`
becomes true.  The Go loop calls `Next`, then checks `Done` before using
the yielded pair (so the final zero-value yield that flips `Done` is
never used), then checks the error, then optionally validates the block
against the previous one, then appends it.  `ValidateBlock` lives in
block.go, which is not among the modelled sources; it is passed as an
abstract function `vb` returning `none` for success, per the spec's
description of block validation.
-/

/-- Loop body of `ReadAllBlocks`: `latest` is the previous block
(initially the zero `Block`). -/
def readAllBlocksAux (vb : Block → Block → Option String) (validate : Bool) :
    Block → List (Block × Option String) → Except String (List Block)
  | _, [] => .ok []
  | latest, (b, e) :: rest =>
    match e with
    | some msg => .error msg
    | none =>
      if validate then
        match vb b latest with
        | some msg => .error msg
        | none => (readAllBlocksAux vb validate b rest).map (fun bs => b :: bs)
      else (readAllBlocksAux vb validate b rest).map (fun bs => b :: bs)

/-- `Database.ReadAllBlocks` over an iterator run `items`. -/
def readAllBlocks (vb : Block → Block → Option String) (validate : Bool)
    (items : List (Block × Option String)) : Except String (List Block) :=
  readAllBlocksAux vb validate Block.zero items

/-- `chainValid vb latest blocks` holds when every block in `blocks`
passes `vb` against its predecessor (the first against `latest`). -/
def chainValid (vb : Block → Block → Option String) : Block → List Block → Bool
  | _, [] => true
  | latest, b :: rest =>
    match vb b latest with
    | some _ => false
    | none => chainValid vb b rest

/-- `genesis.Genesis`, restricted to the fields the database code reads.
The Go genesis carries balances keyed by address strings that
`database.New` converts with `ToAccountID`; the conversion code is not
among the modelled sources, so balances are carried already keyed by
`AccountID`. -/
structure Genesis where
  chainID : Nat
  miningReward : Nat
  balances : List (AccountID × Nat)

/-- The genesis-seeding loop of `Database.New` (database.go lines 60-66). -/
def seedGenesis (gen : Genesis) (m : Accounts) : Accounts :=
  gen.balances.foldl (fun acc p => upd acc p.1 ⟨p.2, 0⟩) m

/-- The replay of one block in `Database.New` (database.go lines 74-79):
every transaction is fed to `ApplyTransaction` with its error return
discarded, then the mining reward is applied. -/
def replayBlock (cid : Nat) (m : Accounts) (blk : Block) : Accounts :=
  applyMiningReward
    (blk.txs.foldl (fun acc tx => (applyTransaction cid acc blk tx).1) m) blk

/-- The database state built by `Database.New`. -/
structure DB where
  accounts : Accounts
  latestBlock : Block

/-- `database.New` (database.go lines 44-81): read and validate all
stored blocks (aborting on any error from the iterator or from block
validation), seed the genesis balances, record the last block as latest,
and replay every block. -/
def NewDB (gen : Genesis) (vb : Block → Block → Option String)
    (items : List (Block × Option String)) : Except String DB :=
  match readAllBlocks vb true items with
  | .error e => .error e
  | .ok blocks =>
    let m0 := seedGenesis gen (fun _ => Account.zero)
    let latest := blocks.getLastD Block.zero
    let m1 := blocks.foldl (fun acc blk => replayBlock gen.chainID acc blk) m0
    .ok ⟨m1, latest⟩

/-- `Peer` (peer.go, reached through worker.go): identified by its host. -/
structure Peer where
  host : String
deriving DecidableEq

/-- `bcWorker.addNewPeers` (worker.go lines 411-425), parametrised by the
state type `σ` and the operation `addPeer` standing for
`state.addPeerNode` (state.go is not among the modelled sources): walk
the peer list in order; on the first `addPeerNode` error return `nil`
immediately; otherwise add every peer and return `nil`. -/
def addNewPeers {σ : Type} (addPeer : σ → Peer → σ × Option String) :
    σ → List Peer → σ × Option String
  | s, [] => (s, none)
  | s, p :: rest =>
    match addPeer s p with
    | (s1, some _) => (s1, none)
    | (s1, none) => addNewPeers addPeer s1 rest

/-- State reached by adding each peer of the list in order
(ignoring errors); the reference fold for `addNewPeers`. -/
def addFold {σ : Type} (addPeer : σ → Peer → σ × Option String) :
    σ → List Peer → σ
  | s, [] => s
  | s, p :: rest => addFold addPeer (addPeer s p).1 rest

/-- `addAllOk addPeer s ps` holds when adding the peers of `ps` in order
from state `s` produces no error. -/
def addAllOk {σ : Type} (addPeer : σ → Peer → σ × Option String) :
    σ → List Peer → Bool
  | _, [] => true
  | s, p :: rest =>
    match (addPeer s p).2 with
    | some _ => false
    | none => addAllOk addPeer (addPeer s p).1 rest

/-! ### Abbreviations for the branch post-states of `ApplyTransaction`,
used to characterise its behaviour in lemmas. -/

/-- The gas fee actually charged: the (wrapping) product of gas price and
gas units, clamped to the sender's balance. -/
def gasFee64 (m : Accounts) (fromID : AccountID) (tx : BlockTx) : Nat :=
  if mul64 tx.gasPrice tx.gasUnits > (m fromID).balance then (m fromID).balance
  else mul64 tx.gasPrice tx.gasUnits

/-- The account map after only the gas charge (the state persisted before
the accounting checks): the sender is debited `g`, then the beneficiary's
stale snapshot, credited `g`, is written. -/
def gasState (m : Accounts) (fromID bnfcID : AccountID) (g : Nat) : Accounts :=
  upd (upd m fromID { m fromID with balance := (m fromID).balance - g })
    bnfcID { m bnfcID with balance := add64 (m bnfcID).balance g }

/-- The account map after a successful `ApplyTransaction`: the final
writes of the sender, recipient and beneficiary snapshots on top of the
gas-charge state (later writes win). -/
def succState (m : Accounts) (fromID bnfcID : AccountID) (tx : BlockTx) (g : Nat) :
    Accounts :=
  upd (upd (upd (gasState m fromID bnfcID g) fromID
      { balance := sub64 (sub64 ((m fromID).balance - g) tx.value) tx.tip,
        nonce := tx.nonce })
    tx.toID { m tx.toID with balance := add64 (m tx.toID).balance tx.value })
    bnfcID { m bnfcID with balance := add64 (add64 (m bnfcID).balance g) tx.tip }

/-- Exact-integer version of `gasFee64`. -/
def gasFeeZ (m : AccountsZ) (fromID : AccountID) (tx : BlockTx) : Int :=
  if (tx.gasPrice : Int) * (tx.gasUnits : Int) > (m fromID).balance then
    (m fromID).balance
  else (tx.gasPrice : Int) * (tx.gasUnits : Int)

/-- Exact-integer version of `gasState`. -/
def gasStateZ (m : AccountsZ) (fromID bnfcID : AccountID) (g : Int) : AccountsZ :=
  updZ (updZ m fromID { m fromID with balance := (m fromID).balance - g })
    bnfcID { m bnfcID with balance := (m bnfcID).balance + g }

/-- Exact-integer version of `succState`. -/
def succStateZ (m : AccountsZ) (fromID bnfcID : AccountID) (tx : BlockTx) (g : Int) :
    AccountsZ :=
  updZ (updZ (updZ (gasStateZ m fromID bnfcID g) fromID
      { balance := (m fromID).balance - g - (tx.value : Int) - (tx.tip : Int),
        nonce := tx.nonce })
    tx.toID { m tx.toID with balance := (m tx.toID).balance + (tx.value : Int) })
    bnfcID { m bnfcID with balance := (m bnfcID).balance + g + (tx.tip : Int) }

/-! ### Concrete fixtures for witnesses and counterexamples -/

/-- The empty account map (every account is the Go zero value). -/
def emptyAccounts : Accounts := fun _ => Account.zero

/-- Pre-state with `A = {1000, 0}` and everything else zero. -/
def exS0 : Accounts := upd emptyAccounts "A" ⟨1000, 0⟩

/-- Pre-state with `A = {1000, 7}` and everything else zero. -/
def exS7 : Accounts := upd emptyAccounts "A" ⟨1000, 7⟩

/-- Pre-state with `A = {5, 0}` and everything else zero. -/
def exS5 : Accounts := upd emptyAccounts "A" ⟨5, 0⟩

/-- Pre-state with `A = {115, 0}` and everything else zero. -/
def exS115 : Accounts := upd emptyAccounts "A" ⟨115, 0⟩

/-- A block whose beneficiary is the miner `M`. -/
def blkBenM : Block := ⟨⟨1, "M", 0⟩, []⟩

/-- A block whose beneficiary is `A` itself. -/
def blkBenA : Block := ⟨⟨1, "A", 0⟩, []⟩

/-- The transaction of the spec's scenario 2:
`{From=A, To=B, Value=100, Tip=10, GasPrice=1, GasUnits=5, Nonce=1}`. -/
def txTransfer : BlockTx := ⟨1, 1, "B", 100, 10, 1, 5, some "A"⟩

/-- The transaction of the spec's scenario 1:
`{From=A, To=B, Value=10, Tip=0, Nonce=5}` with `GasPrice=1, GasUnits=5`. -/
def txStaleNonce : BlockTx := ⟨1, 5, "B", 10, 0, 1, 5, some "A"⟩

/-- A transaction carrying a wrong chain id (99 instead of 1). -/
def txWrongChain : BlockTx := ⟨99, 1, "B", 0, 0, 1, 5, some "A"⟩

/-- A transaction whose value plus tip overflows `uint64`:
`Value = 2^64 - 1`, `Tip = 1`, no gas. -/
def txOverflow : BlockTx := ⟨1, 1, "B", 2 ^ 64 - 1, 1, 0, 0, some "A"⟩

/-- A zero-value zero-tip transaction with `GasPrice=1, GasUnits=5`. -/
def txZeroTransfer : BlockTx := ⟨1, 1, "B", 0, 0, 1, 5, some "A"⟩

/-- A transaction whose signature recovery fails. -/
def txBadSig : BlockTx := ⟨1, 1, "B", 5, 0, 1, 1, none⟩

/-- A transaction with value 100, tip 10, gas fee 5, nonce 2. -/
def txNonce2 : BlockTx := ⟨1, 2, "B", 100, 10, 1, 5, some "A"⟩

/-- Genesis with chain id 1, no mining reward, `A = 1000`. -/
def genA : Genesis := ⟨1, 0, [("A", 1000)]⟩

/-- A transaction with nonce 0, which always fails the nonce check. -/
def txNonceZero : BlockTx := ⟨1, 0, "B", 1, 0, 0, 0, some "A"⟩

/-- A block carrying one transaction whose nonce (0) is stale, so that
its replay through `ApplyTransaction` fails the nonce check. -/
def blkStaleTx : Block := ⟨⟨1, "M", 0⟩, [txNonceZero]⟩

/-- A peer-set state for exercising `addNewPeers`: the set of known peers
as a list, with `addPeerNode` failing on duplicates. -/
def addPeerList (s : List Peer) (p : Peer) : List Peer × Option String :=
  if p ∈ s then (s, some "peer exists") else (s ++ [p], none)

/-! ### Helper lemmas -/

theorem W_pos : 0 < W := by decide

theorem mod_W_eq {a : Nat} (h : a < W) : a % W = a := Nat.mod_eq_of_lt h

theorem add64_eq {a b : Nat} (h : a + b < W) : add64 a b = a + b := by
  simp [add64, Nat.mod_eq_of_lt h]

theorem mul64_eq {a b : Nat} (h : a * b < W) : mul64 a b = a * b := by
  simp [mul64, Nat.mod_eq_of_lt h]

theorem sub64_eq {a b : Nat} (hb : b ≤ a) (ha : a < W) : sub64 a b = a - b := by
  have h1 : a + W - b = W + (a - b) := by omega
  have h2 : a - b < W := by omega
  simp [sub64, h1, Nat.add_mod_left, Nat.mod_eq_of_lt h2]

theorem upd_self (m : Accounts) (k : AccountID) (a : Account) : upd m k a k = a := by
  simp [upd]

theorem upd_other (m : Accounts) (k : AccountID) (a : Account) {id : AccountID}
    (h : id ≠ k) : upd m k a id = m id := by
  simp [upd, h]

theorem sumBal_cons (m : Accounts) (k : AccountID) (ids : List AccountID) :
    sumBal m (k :: ids) = (m k).balance + sumBal m ids := by
  simp [sumBal]

theorem sumBal_congr {m1 m2 : Accounts} (ids : List AccountID)
    (h : ∀ id ∈ ids, m1 id = m2 id) : sumBal m1 ids = sumBal m2 ids := by
  induction ids with
  | nil => rfl
  | cons k rest ih =>
    rw [sumBal_cons, sumBal_cons, h k (by simp), ih]
    intro id hid
    exact h id (by simp [hid])

theorem sumBal_upd {ids : List AccountID} (m : Accounts) {k : AccountID}
    (a : Account) (hnd : ids.Nodup) (hk : k ∈ ids) :
    sumBal (upd m k a) ids + (m k).balance = sumBal m ids + a.balance := by
  induction ids with
  | nil => cases hk
  | cons x rest ih =>
    rcases List.mem_cons.mp hk with hx | hrest
    · subst hx
      have hnotin : k ∉ rest := (List.nodup_cons.mp hnd).1
      rw [sumBal_cons, sumBal_cons, upd_self,
        sumBal_congr rest (fun id hid => upd_other m k a (fun he => hnotin (he ▸ hid))),
        show sumBal (fun id => m id) rest = sumBal m rest from rfl]
      omega
    · have hxk : x ≠ k := fun he => (List.nodup_cons.mp hnd).1 (he ▸ hrest)
      rw [sumBal_cons, sumBal_cons, upd_other m k a hxk]
      have := ih (List.nodup_cons.mp hnd).2 hrest
      omega

theorem mem_le_sumBal {ids : List AccountID} (m : Accounts) {k : AccountID}
    (hk : k ∈ ids) : (m k).balance ≤ sumBal m ids := by
  induction ids with
  | nil => cases hk
  | cons x rest ih =>
    rw [sumBal_cons]
    rcases List.mem_cons.mp hk with hx | hrest
    · subst hx; omega
    · have := ih hrest; omega

theorem pair_le_sumBal {ids : List AccountID} (m : Accounts) {j k : AccountID}
    (hnd : ids.Nodup) (hj : j ∈ ids) (hk : k ∈ ids) (hjk : j ≠ k) :
    (m j).balance + (m k).balance ≤ sumBal m ids := by
  induction ids with
  | nil => cases hj
  | cons x rest ih =>
    rw [sumBal_cons]
    rcases List.mem_cons.mp hj with hxj | hjr
    · subst hxj
      have hkr : k ∈ rest := by
        rcases List.mem_cons.mp hk with hxk | hkr
        · exact absurd hxk.symm hjk
        · exact hkr
      have := mem_le_sumBal m hkr
      omega
    · rcases List.mem_cons.mp hk with hxk | hkr
      · subst hxk
        have := mem_le_sumBal m hjr
        omega
      · have := ih (List.nodup_cons.mp hnd).2 hjr hkr
        omega

/-! ### Branch characterisations of `applyTransaction` -/

theorem apply_sig_fail {cid : Nat} {m : Accounts} {blk : Block} {tx : BlockTx}
    (hsig : tx.fromSig = none) :
    applyTransaction cid m blk tx = (m, some TxErr.invalidSignature) := by
  simp [applyTransaction, hsig]

theorem apply_wrong_chain {cid : Nat} {m : Accounts} {blk : Block} {tx : BlockTx}
    {fromID : AccountID} (hsig : tx.fromSig = some fromID)
    (hc : tx.chainID ≠ cid) :
    applyTransaction cid m blk tx =
      (gasState m fromID blk.header.beneficiaryID (gasFee64 m fromID tx),
       some TxErr.wrongChainID) := by
  simp [applyTransaction, hsig, hc, gasState, gasFee64]

theorem apply_self_transfer {cid : Nat} {m : Accounts} {blk : Block} {tx : BlockTx}
    {fromID : AccountID} (hsig : tx.fromSig = some fromID)
    (hc : tx.chainID = cid) (hs : fromID = tx.toID) :
    applyTransaction cid m blk tx =
      (gasState m fromID blk.header.beneficiaryID (gasFee64 m fromID tx),
       some TxErr.selfTransfer) := by
  simp [applyTransaction, hsig, hc, hs, gasState, gasFee64]

theorem apply_nonce_too_small {cid : Nat} {m : Accounts} {blk : Block} {tx : BlockTx}
    {fromID : AccountID} (hsig : tx.fromSig = some fromID)
    (hc : tx.chainID = cid) (hs : fromID ≠ tx.toID)
    (hn : tx.nonce ≤ (m fromID).nonce) :
    applyTransaction cid m blk tx =
      (gasState m fromID blk.header.beneficiaryID (gasFee64 m fromID tx),
       some TxErr.nonceTooSmall) := by
  simp [applyTransaction, hsig, hc, hs, hn, gasState, gasFee64]

theorem apply_insufficient {cid : Nat} {m : Accounts} {blk : Block} {tx : BlockTx}
    {fromID : AccountID} (hsig : tx.fromSig = some fromID)
    (hc : tx.chainID = cid) (hs : fromID ≠ tx.toID)
    (hn : (m fromID).nonce < tx.nonce)
    (hf : (m fromID).balance - gasFee64 m fromID tx = 0 ∨
      (m fromID).balance - gasFee64 m fromID tx < add64 tx.value tx.tip) :
    applyTransaction cid m blk tx =
      (gasState m fromID blk.header.beneficiaryID (gasFee64 m fromID tx),
       some TxErr.insufficientFunds) := by
  rcases hf with hf | hf <;>
    simp [applyTransaction, hsig, hc, hs, Nat.not_le.mpr hn, gasState, gasFee64,
      gasFee64] at hf ⊢ <;>
    simp [hf]

theorem apply_success {cid : Nat} {m : Accounts} {blk : Block} {tx : BlockTx}
    {fromID : AccountID} (hsig : tx.fromSig = some fromID)
    (hc : tx.chainID = cid) (hs : fromID ≠ tx.toID)
    (hn : (m fromID).nonce < tx.nonce)
    (hf1 : (m fromID).balance - gasFee64 m fromID tx ≠ 0)
    (hf2 : add64 tx.value tx.tip ≤ (m fromID).balance - gasFee64 m fromID tx) :
    applyTransaction cid m blk tx =
      (succState m fromID blk.header.beneficiaryID tx (gasFee64 m fromID tx),
       none) := by
  simp only [gasFee64, gt_iff_lt] at hf1 hf2
  simp [applyTransaction, hsig, hc, hs, Nat.not_le.mpr hn, Nat.not_lt.mpr hf2,
    succState, gasState, gasFee64, hf1]

/-! ### Branch characterisations of `applyTransactionExact` -/

theorem applyZ_sig_fail {cid : Nat} {m : AccountsZ} {blk : Block} {tx : BlockTx}
    (hsig : tx.fromSig = none) :
    applyTransactionExact cid m blk tx = (m, some TxErr.invalidSignature) := by
  simp [applyTransactionExact, hsig]

theorem applyZ_wrong_chain {cid : Nat} {m : AccountsZ} {blk : Block} {tx : BlockTx}
    {fromID : AccountID} (hsig : tx.fromSig = some fromID)
    (hc : tx.chainID ≠ cid) :
    applyTransactionExact cid m blk tx =
      (gasStateZ m fromID blk.header.beneficiaryID (gasFeeZ m fromID tx),
       some TxErr.wrongChainID) := by
  simp [applyTransactionExact, hsig, hc, gasStateZ, gasFeeZ]

theorem applyZ_self_transfer {cid : Nat} {m : AccountsZ} {blk : Block} {tx : BlockTx}
    {fromID : AccountID} (hsig : tx.fromSig = some fromID)
    (hc : tx.chainID = cid) (hs : fromID = tx.toID) :
    applyTransactionExact cid m blk tx =
      (gasStateZ m fromID blk.header.beneficiaryID (gasFeeZ m fromID tx),
       some TxErr.selfTransfer) := by
  simp [applyTransactionExact, hsig, hc, hs, gasStateZ, gasFeeZ]

theorem applyZ_nonce_too_small {cid : Nat} {m : AccountsZ} {blk : Block} {tx : BlockTx}
    {fromID : AccountID} (hsig : tx.fromSig = some fromID)
    (hc : tx.chainID = cid) (hs : fromID ≠ tx.toID)
    (hn : tx.nonce ≤ (m fromID).nonce) :
    applyTransactionExact cid m blk tx =
      (gasStateZ m fromID blk.header.beneficiaryID (gasFeeZ m fromID tx),
       some TxErr.nonceTooSmall) := by
  simp [applyTransactionExact, hsig, hc, hs, hn, gasStateZ, gasFeeZ]

theorem applyZ_insufficient {cid : Nat} {m : AccountsZ} {blk : Block} {tx : BlockTx}
    {fromID : AccountID} (hsig : tx.fromSig = some fromID)
    (hc : tx.chainID = cid) (hs : fromID ≠ tx.toID)
    (hn : (m fromID).nonce < tx.nonce)
    (hf : (m fromID).balance - gasFeeZ m fromID tx = 0 ∨
      (m fromID).balance - gasFeeZ m fromID tx < (tx.value : Int) + (tx.tip : Int)) :
    applyTransactionExact cid m blk tx =
      (gasStateZ m fromID blk.header.beneficiaryID (gasFeeZ m fromID tx),
       some TxErr.insufficientFunds) := by
  rcases hf with hf | hf <;>
    simp only [gasFeeZ, gt_iff_lt] at hf <;>
    simp [applyTransactionExact, hsig, hc, hs, Nat.not_le.mpr hn, gasStateZ, gasFeeZ,
      hf]

theorem applyZ_success {cid : Nat} {m : AccountsZ} {blk : Block} {tx : BlockTx}
    {fromID : AccountID} (hsig : tx.fromSig = some fromID)
    (hc : tx.chainID = cid) (hs : fromID ≠ tx.toID)
    (hn : (m fromID).nonce < tx.nonce)
    (hf1 : (m fromID).balance - gasFeeZ m fromID tx ≠ 0)
    (hf2 : (tx.value : Int) + (tx.tip : Int) ≤ (m fromID).balance - gasFeeZ m fromID tx) :
    applyTransactionExact cid m blk tx =
      (succStateZ m fromID blk.header.beneficiaryID tx (gasFeeZ m fromID tx),
       none) := by
  simp only [gasFeeZ, gt_iff_lt] at hf1 hf2
  simp [applyTransactionExact, hsig, hc, hs, Nat.not_le.mpr hn, not_lt.mpr hf2,
    succStateZ, gasStateZ, gasFeeZ, hf1]

/-- `readAllBlocksAux` on an error-free iterator run returns exactly the
yielded blocks, provided validation (when requested) passes. -/
theorem readAllBlocksAux_no_err (vb : Block → Block → Option String)
    (validate : Bool) :
    ∀ (latest : Block) (blocks : List Block),
    (validate = true → chainValid vb latest blocks = true) →
    readAllBlocksAux vb validate latest (blocks.map fun b => (b, none)) =
      .ok blocks := by
  intro latest blocks
  induction blocks generalizing latest with
  | nil => intro _; rfl
  | cons b rest ih =>
    intro hv
    simp only [List.map_cons, readAllBlocksAux]
    cases validate with
    | false =>
      rw [if_neg (by simp)]
      rw [ih b (fun h => by cases h)]
      rfl
    | true =>
      have hcv := hv rfl
      rw [chainValid] at hcv
      rw [if_pos rfl]
      cases hvb : vb b latest with
      | some msg => rw [hvb] at hcv; cases hcv
      | none =>
        rw [hvb] at hcv
        rw [ih b (fun _ => hcv)]
        rfl

/-- C10: if signature recovery (`tx.FromAccount`) fails,
`ApplyTransaction` returns an error and the account map is completely
unchanged — not even the gas charge is applied, because sender recovery
happens before any account is read or written. -/
theorem applyTransaction_invalid_signature_unchanged (cid : Nat) (m : Accounts)
    (blk : Block) (tx : BlockTx) (hsig : tx.fromSig = none) :
    (applyTransaction cid m blk tx).2 = some TxErr.invalidSignature ∧
      ∀ id, (applyTransaction cid m blk tx).1 id = m id := by
  rw [apply_sig_fail hsig]
  exact ⟨rfl, fun id => rfl⟩

/-- Witness for C10 at a concrete failed-recovery transaction. -/
theorem applyTransaction_invalid_signature_unchanged_witness :
    (applyTransaction 1 exS0 blkBenM txBadSig).2 = some TxErr.invalidSignature ∧
      (applyTransaction 1 exS0 blkBenM txBadSig).1 "A" = exS0 "A" :=
  ⟨(applyTransaction_invalid_signature_unchanged 1 exS0 blkBenM txBadSig rfl).1,
   (applyTransaction_invalid_signature_unchanged 1 exS0 blkBenM txBadSig rfl).2 "A"⟩

/-- C8: for an iterator run whose `Next` calls yield blocks without
errors, `ReadAllBlocks` returns, in order, exactly those blocks yielded
by `Next` calls after which `Done()` is false; the final `Next` that
yields a zero-value block immediately before `Done` becomes true (the
empty remainder of the run) contributes no block.  When validation is
requested it is assumed to pass on every yielded block. -/
theorem readAllBlocks_returns_pre_done_yields (vb : Block → Block → Option String)
    (validate : Bool) (blocks : List Block)
    (hv : validate = true → chainValid vb Block.zero blocks = true) :
    readAllBlocks vb validate (blocks.map fun b => (b, none)) = .ok blocks :=
  readAllBlocksAux_no_err vb validate Block.zero blocks hv

/-- Witness for C8: a two-block run is returned in order. -/
theorem readAllBlocks_returns_pre_done_yields_witness :
    readAllBlocks (fun _ _ => none) true ([blkBenM, blkBenA].map fun b => (b, none)) =
      .ok [blkBenM, blkBenA] :=
  readAllBlocks_returns_pre_done_yields (fun _ _ => none) true [blkBenM, blkBenA]
    (fun _ => rfl)

/-- C6 (amended): once recovery, the chain-id check, the self-transfer
check and the nonce check pass, `ApplyTransaction` fails with
`insufficientFunds` iff the post-gas balance is zero or is strictly less
than `tx.Value + tx.Tip` (computed in wrapping `uint64` arithmetic).  A
positive post-gas balance equal to `tx.Value + tx.Tip` succeeds, but a
zero post-gas balance fails even when `tx.Value + tx.Tip` is zero. -/
theorem applyTransaction_insufficient_funds_iff (cid : Nat) (m : Accounts)
    (blk : Block) (tx : BlockTx) (fromID : AccountID)
    (hsig : tx.fromSig = some fromID) (hc : tx.chainID = cid)
    (hs : fromID ≠ tx.toID) (hn : (m fromID).nonce < tx.nonce) :
    (applyTransaction cid m blk tx).2 = some TxErr.insufficientFunds ↔
      ((m fromID).balance - gasFee64 m fromID tx = 0 ∨
       (m fromID).balance - gasFee64 m fromID tx < add64 tx.value tx.tip) := by
  constructor
  · intro h
    by_contra hf
    push_neg at hf
    rw [apply_success hsig hc hs hn hf.1 hf.2] at h
    cases h
  · intro hf
    rw [apply_insufficient hsig hc hs hn hf]

/-- Witness for C6: with `A = {115, 0}` and a gas fee of 5 the post-gas
balance 110 equals `Value + Tip = 110` and is positive, and the iff
instance holds there. -/
theorem applyTransaction_insufficient_funds_iff_witness :
    (applyTransaction 1 exS115 blkBenM txTransfer).2 =
        some TxErr.insufficientFunds ↔
      ((exS115 "A").balance - gasFee64 exS115 "A" txTransfer = 0 ∨
       (exS115 "A").balance - gasFee64 exS115 "A" txTransfer <
         add64 txTransfer.value txTransfer.tip) :=
  applyTransaction_insufficient_funds_iff 1 exS115 blkBenM txTransfer "A" rfl rfl
    (by decide) (by decide)

/-- Counterexample for C6: with `A = {5, 0}`, `GasPrice=1, GasUnits=5`
the post-gas balance is 0 and `Value + Tip = 0`; the claim says this
succeeds, but the code returns `insufficientFunds` because of the
`from.Balance == 0` clause. -/
theorem applyTransaction_zero_balance_zero_transfer_fails :
    (exS5 "A").balance - gasFee64 exS5 "A" txZeroTransfer = 0 ∧
      txZeroTransfer.value + txZeroTransfer.tip = 0 ∧
      (applyTransaction 1 exS5 blkBenM txZeroTransfer).2 =
        some TxErr.insufficientFunds := by
  refine ⟨by decide, by decide, ?_⟩
  decide

/-- C9: `addNewPeers` attempts `addPeerNode` on each peer in list order;
upon the first peer for which `addPeerNode` errors (e.g. a duplicate) it
returns nil immediately without attempting any later peer in the list,
and if no call errors every peer is added and nil is returned. -/
theorem addNewPeers_nil_on_first_error :
    (∀ (σ : Type) (addPeer : σ → Peer → σ × Option String) (s : σ)
        (ps1 : List Peer) (p : Peer) (ps2 : List Peer),
        addAllOk addPeer s ps1 = true →
        ((addPeer (addFold addPeer s ps1) p).2).isSome = true →
        addNewPeers addPeer s (ps1 ++ p :: ps2) =
          ((addPeer (addFold addPeer s ps1) p).1, none)) ∧
    (∀ (σ : Type) (addPeer : σ → Peer → σ × Option String) (s : σ)
        (ps : List Peer), addAllOk addPeer s ps = true →
        addNewPeers addPeer s ps = (addFold addPeer s ps, none)) := by
  constructor
  · intro σ addPeer s ps1 p ps2 hok herr
    induction ps1 generalizing s with
    | nil =>
      simp only [List.nil_append, addNewPeers, addFold] at herr ⊢
      rcases hq : addPeer s p with ⟨s1, e⟩
      rw [hq] at herr
      cases e with
      | none => simp at herr
      | some msg => rfl
    | cons q rest ih =>
      rw [addAllOk] at hok
      rw [addFold] at herr ⊢
      simp only [List.cons_append, addNewPeers]
      rcases hq : addPeer s q with ⟨s1, e⟩
      rw [hq] at hok herr
      cases e with
      | some msg => simp at hok
      | none => exact ih s1 hok herr
  · intro σ addPeer s ps hok
    induction ps generalizing s with
    | nil => rfl
    | cons q rest ih =>
      rw [addAllOk] at hok
      rw [addFold]
      simp only [addNewPeers]
      rcases hq : addPeer s q with ⟨s1, e⟩
      rw [hq] at hok
      cases e with
      | some msg => simp at hok
      | none => exact ih s1 hok

/-- Witness for C9: with the peer set modelled as a list and
`addPeerNode` failing on duplicates, adding `[p1, p1, p2]` to the empty
set stops at the duplicate `p1` and never attempts `p2`, returning nil;
and adding `[p1, p2]` adds both and returns nil. -/
theorem addNewPeers_nil_on_first_error_witness :
    addNewPeers addPeerList [] [⟨"h1"⟩, ⟨"h1"⟩, ⟨"h2"⟩] = ([⟨"h1"⟩], none) ∧
      addNewPeers addPeerList [] [⟨"h1"⟩, ⟨"h2"⟩] = ([⟨"h1"⟩, ⟨"h2"⟩], none) := by
  constructor
  · have h := addNewPeers_nil_on_first_error.1 (List Peer) addPeerList []
      [⟨"h1"⟩] ⟨"h1"⟩ [⟨"h2"⟩] (by decide) (by decide)
    simp only [List.cons_append, List.nil_append] at h
    rw [h]
    decide
  · have h := addNewPeers_nil_on_first_error.2 (List Peer) addPeerList []
      [⟨"h1"⟩, ⟨"h2"⟩] (by decide)
    rw [h]
    decide

/-- When the `uint64` product of gas price and gas units does not
overflow, the charged gas fee is its minimum with the sender's balance. -/
theorem gasFee64_eq_min {m : Accounts} {fromID : AccountID} {tx : BlockTx}
    (hg : tx.gasPrice * tx.gasUnits < W) :
    gasFee64 m fromID tx = min (tx.gasPrice * tx.gasUnits) ((m fromID).balance) := by
  rw [gasFee64, mul64_eq hg]
  split_ifs with h <;> omega

/-- Whenever `applyTransaction` returns an accounting-check error, the
post-state is the gas-charge state. -/
theorem apply_error_state {cid : Nat} {m : Accounts} {blk : Block} {tx : BlockTx}
    {fromID : AccountID} {e : TxErr} (hsig : tx.fromSig = some fromID)
    (herr : (applyTransaction cid m blk tx).2 = some e) :
    (applyTransaction cid m blk tx).1 =
      gasState m fromID blk.header.beneficiaryID (gasFee64 m fromID tx) := by
  by_cases hc : tx.chainID = cid
  · by_cases hs : fromID = tx.toID
    · rw [apply_self_transfer hsig hc hs]
    · by_cases hn : tx.nonce ≤ (m fromID).nonce
      · rw [apply_nonce_too_small hsig hc hs hn]
      · push_neg at hn
        by_cases hf : (m fromID).balance - gasFee64 m fromID tx = 0 ∨
            (m fromID).balance - gasFee64 m fromID tx < add64 tx.value tx.tip
        · rw [apply_insufficient hsig hc hs hn hf]
        · push_neg at hf
          rw [apply_success hsig hc hs hn hf.1 hf.2] at herr
          cases herr
  · rw [apply_wrong_chain hsig hc]

/-- C3 (amended): when recovery succeeds but an accounting check fails,
and the block's beneficiary is a different account from the sender, the
only state change is the gas charge: the sender loses
`min(tx.GasPrice * tx.GasUnits, pre-balance)`, the beneficiary gains the
same amount, and every other field of every account — the sender's nonce
and the recipient included — is unchanged. -/
theorem applyTransaction_error_charges_gas_only (cid : Nat) (m : Accounts)
    (blk : Block) (tx : BlockTx) (fromID : AccountID) (e : TxErr)
    (hsig : tx.fromSig = some fromID)
    (hbf : blk.header.beneficiaryID ≠ fromID)
    (herr : (applyTransaction cid m blk tx).2 = some e)
    (_hne : e ≠ TxErr.invalidSignature)
    (hg : tx.gasPrice * tx.gasUnits < W)
    (hbw : (m blk.header.beneficiaryID).balance + gasFee64 m fromID tx < W) :
    (applyTransaction cid m blk tx).1 fromID =
      ⟨(m fromID).balance - min (tx.gasPrice * tx.gasUnits) ((m fromID).balance),
       (m fromID).nonce⟩ ∧
    (applyTransaction cid m blk tx).1 blk.header.beneficiaryID =
      ⟨(m blk.header.beneficiaryID).balance +
         min (tx.gasPrice * tx.gasUnits) ((m fromID).balance),
       (m blk.header.beneficiaryID).nonce⟩ ∧
    ∀ id, id ≠ fromID → id ≠ blk.header.beneficiaryID →
      (applyTransaction cid m blk tx).1 id = m id := by
  rw [apply_error_state hsig herr]
  rw [gasFee64_eq_min hg] at hbw ⊢
  refine ⟨?_, ?_, ?_⟩
  · rw [gasState, upd_other _ _ _ hbf.symm, upd_self]
  · rw [gasState, upd_self, add64_eq hbw]
  · intro id hif hib
    rw [gasState, upd_other _ _ _ hib, upd_other _ _ _ hif]

/-- Witness for C3 at the claim's concrete instance: `A = {1000, 7}`,
`tx {Value=10, Tip=0, Nonce=5}`, `GasPrice=1, GasUnits=5`, mined by `M`:
nonce-too-small error with `A = {995, 7}`, `M = {5, 0}`, `B` unchanged. -/
theorem applyTransaction_error_charges_gas_only_witness :
    (applyTransaction 1 exS7 blkBenM txStaleNonce).2 = some TxErr.nonceTooSmall ∧
      (applyTransaction 1 exS7 blkBenM txStaleNonce).1 "A" = ⟨995, 7⟩ ∧
      (applyTransaction 1 exS7 blkBenM txStaleNonce).1 "M" = ⟨5, 0⟩ ∧
      (applyTransaction 1 exS7 blkBenM txStaleNonce).1 "B" = ⟨0, 0⟩ := by
  have h := applyTransaction_error_charges_gas_only 1 exS7 blkBenM txStaleNonce "A"
    TxErr.nonceTooSmall rfl (by decide) (by decide) (by decide) (by decide)
    (by decide)
  exact ⟨by decide, h.1.trans (by decide), h.2.1.trans (by decide),
    (h.2.2 "B" (by decide) (by decide)).trans (by decide)⟩

/-- Counterexample for C3: when the failing transaction's block is mined
by the sender itself (`beneficiary = A`), the stale beneficiary write
overwrites the gas debit: `A`'s balance grows from 1000 to 1005 instead
of dropping to the claimed `1000 - min(gasFee, 1000) = 995`. -/
theorem applyTransaction_error_alias_inflates_sender :
    (applyTransaction 1 exS0 blkBenA txWrongChain).2 = some TxErr.wrongChainID ∧
      (applyTransaction 1 exS0 blkBenA txWrongChain).1 "A" = ⟨1005, 0⟩ ∧
      (exS0 "A").balance -
          min (txWrongChain.gasPrice * txWrongChain.gasUnits) (exS0 "A").balance =
        995 := by
  exact ⟨by decide, by decide, by decide⟩

/-- The charged gas fee never exceeds the sender's pre-balance. -/
theorem gasFee64_le (m : Accounts) (fromID : AccountID) (tx : BlockTx) :
    gasFee64 m fromID tx ≤ (m fromID).balance := by
  rw [gasFee64]
  split_ifs with h <;> omega

/-- The gas charge moves `g` from the sender to a distinct beneficiary,
so it preserves the total balance over any covering set of accounts. -/
theorem sumBal_gasState {m : Accounts} {ids : List AccountID}
    {fromID bnfcID : AccountID} {g : Nat} (hnd : ids.Nodup) (hfm : fromID ∈ ids)
    (hbm : bnfcID ∈ ids) (hbf : bnfcID ≠ fromID) (hg : g ≤ (m fromID).balance)
    (hw : (m bnfcID).balance + g < W) :
    sumBal (gasState m fromID bnfcID g) ids = sumBal m ids := by
  rw [gasState, add64_eq hw]
  have h1 := sumBal_upd m
    ({ m fromID with balance := (m fromID).balance - g } : Account) hnd hfm
  have h2 := sumBal_upd
    (upd m fromID { m fromID with balance := (m fromID).balance - g })
    ({ m bnfcID with balance := (m bnfcID).balance + g } : Account) hnd hbm
  rw [upd_other m fromID _ hbf] at h2
  dsimp only at h1 h2 ⊢
  omega

/-- Inversion of a successful `applyTransaction`: all checks passed and
the result is the success state. -/
theorem apply_success_conditions {cid : Nat} {m : Accounts} {blk : Block}
    {tx : BlockTx} {fromID : AccountID} (hsig : tx.fromSig = some fromID)
    (hok : (applyTransaction cid m blk tx).2 = none) :
    tx.chainID = cid ∧ fromID ≠ tx.toID ∧ (m fromID).nonce < tx.nonce ∧
      (m fromID).balance - gasFee64 m fromID tx ≠ 0 ∧
      add64 tx.value tx.tip ≤ (m fromID).balance - gasFee64 m fromID tx ∧
      applyTransaction cid m blk tx =
        (succState m fromID blk.header.beneficiaryID tx (gasFee64 m fromID tx),
         none) := by
  by_cases hc : tx.chainID = cid
  · by_cases hs : fromID = tx.toID
    · rw [apply_self_transfer hsig hc hs] at hok; cases hok
    · by_cases hn : tx.nonce ≤ (m fromID).nonce
      · rw [apply_nonce_too_small hsig hc hs hn] at hok; cases hok
      · push_neg at hn
        by_cases hf : (m fromID).balance - gasFee64 m fromID tx = 0 ∨
            (m fromID).balance - gasFee64 m fromID tx < add64 tx.value tx.tip
        · rw [apply_insufficient hsig hc hs hn hf] at hok; cases hok
        · push_neg at hf
          exact ⟨hc, hs, hn, hf.1, hf.2, apply_success hsig hc hs hn hf.1 hf.2⟩
  · rw [apply_wrong_chain hsig hc] at hok; cases hok

/-- A successful transaction with pairwise-distinct sender, recipient and
beneficiary moves value and fees between the three accounts without
creating or destroying balance. -/
theorem sumBal_succState {m : Accounts} {ids : List AccountID}
    {fromID bnfcID : AccountID} {tx : BlockTx} {g : Nat}
    (hnd : ids.Nodup) (hfm : fromID ∈ ids) (htm : tx.toID ∈ ids)
    (hbm : bnfcID ∈ ids) (hft : fromID ≠ tx.toID) (hbf : bnfcID ≠ fromID)
    (hbt : bnfcID ≠ tx.toID) (hg : g ≤ (m fromID).balance)
    (hvt : tx.value + tx.tip ≤ (m fromID).balance - g)
    (hsum : sumBal m ids < W) :
    sumBal (succState m fromID bnfcID tx g) ids = sumBal m ids := by
  have hfb : (m fromID).balance ≤ sumBal m ids := mem_le_sumBal m hfm
  have hbfp : (m bnfcID).balance + (m fromID).balance ≤ sumBal m ids :=
    pair_le_sumBal m hnd hbm hfm hbf
  have htfp : (m tx.toID).balance + (m fromID).balance ≤ sumBal m ids :=
    pair_le_sumBal m hnd htm hfm (Ne.symm hft)
  rw [succState, gasState]
  have e1 : sub64 ((m fromID).balance - g) tx.value =
      (m fromID).balance - g - tx.value := sub64_eq (by omega) (by omega)
  have e2 : sub64 ((m fromID).balance - g - tx.value) tx.tip =
      (m fromID).balance - g - tx.value - tx.tip := sub64_eq (by omega) (by omega)
  have e3 : add64 (m tx.toID).balance tx.value =
      (m tx.toID).balance + tx.value := add64_eq (by omega)
  have e4 : add64 (m bnfcID).balance g = (m bnfcID).balance + g :=
    add64_eq (by omega)
  have e5 : add64 ((m bnfcID).balance + g) tx.tip =
      (m bnfcID).balance + g + tx.tip := add64_eq (by omega)
  rw [e1, e2, e3, e4, e5]
  have h1 := sumBal_upd m
    ({ m fromID with balance := (m fromID).balance - g } : Account) hnd hfm
  have h2 := sumBal_upd
    (upd m fromID { m fromID with balance := (m fromID).balance - g })
    ({ m bnfcID with balance := (m bnfcID).balance + g } : Account) hnd hbm
  rw [upd_other m fromID _ hbf] at h2
  have h3 := sumBal_upd
    (upd (upd m fromID { m fromID with balance := (m fromID).balance - g })
      bnfcID { m bnfcID with balance := (m bnfcID).balance + g })
    (⟨(m fromID).balance - g - tx.value - tx.tip, tx.nonce⟩ : Account) hnd hfm
  rw [upd_other _ bnfcID _ (Ne.symm hbf), upd_self] at h3
  have h4 := sumBal_upd
    (upd (upd (upd m fromID { m fromID with balance := (m fromID).balance - g })
        bnfcID { m bnfcID with balance := (m bnfcID).balance + g })
      fromID ⟨(m fromID).balance - g - tx.value - tx.tip, tx.nonce⟩)
    ({ m tx.toID with balance := (m tx.toID).balance + tx.value } : Account) hnd htm
  rw [upd_other _ fromID _ (Ne.symm hft), upd_other _ bnfcID _ (Ne.symm hbt),
    upd_other m fromID _ (Ne.symm hft)] at h4
  have h5 := sumBal_upd
    (upd (upd (upd (upd m fromID
          { m fromID with balance := (m fromID).balance - g })
        bnfcID { m bnfcID with balance := (m bnfcID).balance + g })
      fromID ⟨(m fromID).balance - g - tx.value - tx.tip, tx.nonce⟩)
      tx.toID { m tx.toID with balance := (m tx.toID).balance + tx.value })
    ({ m bnfcID with balance := (m bnfcID).balance + g + tx.tip } : Account) hnd hbm
  rw [upd_other _ tx.toID _ hbt, upd_other _ fromID _ hbf, upd_self] at h5
  dsimp only at h1 h2 h3 h4 h5 ⊢
  omega

/-- C2 (amended): for every pre-state and transaction with recovered
sender, `ApplyTransaction` leaves the sum of balances over any
duplicate-free set of accounts covering the sender, recipient and
beneficiary unchanged — whether it succeeds or errors — provided the
block's beneficiary is a distinct account from both the sender and the
recipient, the total balance fits in `uint64`, and `tx.Value + tx.Tip`
does not overflow `uint64`.  (When the beneficiary coincides with the
sender or recipient, the stale beneficiary write loses one of the
debits/credits and the sum changes.) -/
theorem applyTransaction_preserves_total_balance (cid : Nat) (m : Accounts)
    (blk : Block) (tx : BlockTx) (fromID : AccountID) (ids : List AccountID)
    (hsig : tx.fromSig = some fromID) (hnd : ids.Nodup)
    (hfm : fromID ∈ ids) (htm : tx.toID ∈ ids)
    (hbm : blk.header.beneficiaryID ∈ ids)
    (hbf : blk.header.beneficiaryID ≠ fromID)
    (hbt : blk.header.beneficiaryID ≠ tx.toID)
    (hsum : sumBal m ids < W) (hvt : tx.value + tx.tip < W) :
    sumBal ((applyTransaction cid m blk tx).1) ids = sumBal m ids := by
  have hg := gasFee64_le m fromID tx
  have hbfp : (m blk.header.beneficiaryID).balance + (m fromID).balance ≤
      sumBal m ids := pair_le_sumBal m hnd hbm hfm hbf
  have hw : (m blk.header.beneficiaryID).balance + gasFee64 m fromID tx < W := by
    omega
  rcases herr : (applyTransaction cid m blk tx).2 with _ | e
  · obtain ⟨hc, hs, hn, hf1, hf2, heq⟩ := apply_success_conditions hsig herr
    rw [add64_eq hvt] at hf2
    rw [heq]
    exact sumBal_succState hnd hfm htm hbm hs hbf hbt hg hf2 hsum
  · rw [apply_error_state hsig herr]
    exact sumBal_gasState hnd hfm hbm hbf hg hw

/-- Witness for C2: the spec's scenario 2 (`A=1000`, transfer of 100 with
tip 10 and gas 5 to `B`, mined by `M`) keeps the total balance at 1000. -/
theorem applyTransaction_preserves_total_balance_witness :
    sumBal ((applyTransaction 1 exS0 blkBenM txTransfer).1) ["A", "B", "M"] =
      sumBal exS0 ["A", "B", "M"] :=
  applyTransaction_preserves_total_balance 1 exS0 blkBenM txTransfer "A"
    ["A", "B", "M"] rfl (by decide) (by decide) (by decide) (by decide)
    (by decide) (by decide) (by decide) (by decide)

/-- Counterexample for C2: a failing transaction whose block beneficiary
is the sender itself.  The gas debit of `A` is overwritten by the stale
beneficiary credit, so the total balance over `{A, B}` grows from 1000 to
1005: balance is created. -/
theorem applyTransaction_alias_creates_balance :
    sumBal ((applyTransaction 1 exS0 blkBenA txWrongChain).1) ["A", "B"] = 1005 ∧
      sumBal exS0 ["A", "B"] = 1000 := by
  exact ⟨by decide, by decide⟩

/-- C1 (amended): when signature recovery yields the sender and all four
accounting checks pass, and the block's beneficiary is a distinct account
from both the sender and the recipient (and no involved `uint64` sum or
product overflows), `ApplyTransaction` succeeds and produces exactly the
post-state of the spec's sequential steps: the sender is debited the
clamped gas fee, then debited value and tip with its nonce set to
`tx.Nonce`; the recipient is credited the value; the beneficiary is
credited gas fee plus tip. -/
theorem applyTransaction_success_matches_spec_steps (cid : Nat) (m : Accounts)
    (blk : Block) (tx : BlockTx) (fromID : AccountID)
    (hsig : tx.fromSig = some fromID)
    (hbf : blk.header.beneficiaryID ≠ fromID)
    (hbt : blk.header.beneficiaryID ≠ tx.toID)
    (hc : tx.chainID = cid) (hs : fromID ≠ tx.toID)
    (hn : (m fromID).nonce < tx.nonce)
    (hf1 : (m fromID).balance -
        min (tx.gasPrice * tx.gasUnits) ((m fromID).balance) ≠ 0)
    (hf2 : tx.value + tx.tip ≤
        (m fromID).balance - min (tx.gasPrice * tx.gasUnits) ((m fromID).balance))
    (hg : tx.gasPrice * tx.gasUnits < W) (hvt : tx.value + tx.tip < W)
    (hfW : (m fromID).balance < W)
    (htoW : (m tx.toID).balance + tx.value < W)
    (hbnW : (m blk.header.beneficiaryID).balance +
        min (tx.gasPrice * tx.gasUnits) ((m fromID).balance) + tx.tip < W) :
    (applyTransaction cid m blk tx).2 = none ∧
      ∀ id, (applyTransaction cid m blk tx).1 id = specApplySteps m fromID blk tx id := by
  have hmin : gasFee64 m fromID tx =
      min (tx.gasPrice * tx.gasUnits) ((m fromID).balance) := gasFee64_eq_min hg
  have hf1n : (m fromID).balance - gasFee64 m fromID tx ≠ 0 := by
    rw [hmin]; exact hf1
  have hf2n : add64 tx.value tx.tip ≤ (m fromID).balance - gasFee64 m fromID tx := by
    rw [add64_eq hvt, hmin]; exact hf2
  have heq := @apply_success cid m blk tx fromID hsig hc hs hn hf1n hf2n
  have hgle := gasFee64_le m fromID tx
  refine ⟨by rw [heq], ?_⟩
  intro id
  rw [heq]
  dsimp only
  rw [succState, gasState]
  have e1 : sub64 ((m fromID).balance - gasFee64 m fromID tx) tx.value =
      (m fromID).balance - gasFee64 m fromID tx - tx.value :=
    sub64_eq (by omega) (by omega)
  have e2 : sub64 ((m fromID).balance - gasFee64 m fromID tx - tx.value) tx.tip =
      (m fromID).balance - gasFee64 m fromID tx - tx.value - tx.tip :=
    sub64_eq (by omega) (by omega)
  have e3 : add64 (m tx.toID).balance tx.value =
      (m tx.toID).balance + tx.value := add64_eq (by omega)
  have e4 : add64 (m blk.header.beneficiaryID).balance (gasFee64 m fromID tx) =
      (m blk.header.beneficiaryID).balance + gasFee64 m fromID tx := by
    apply add64_eq; omega
  have e5 : add64 ((m blk.header.beneficiaryID).balance + gasFee64 m fromID tx)
        tx.tip =
      (m blk.header.beneficiaryID).balance + gasFee64 m fromID tx + tx.tip := by
    apply add64_eq; omega
  rw [e1, e2, e3, e4, e5, specApplySteps]
  by_cases hib : id = blk.header.beneficiaryID
  · subst hib
    simp [upd, hmin, hbf, hbt, Ne.symm hs]
  · by_cases hit : id = tx.toID
    · subst hit
      simp [upd, hmin, Ne.symm hs, Ne.symm hbt, hib]
    · by_cases hif : id = fromID
      · subst hif
        simp [upd, hmin, hs, Ne.symm hbf, hib]
      · simp [upd, hib, hit, hif]

/-- Witness for C1 at the claim's concrete instance (the spec's scenario
2): balances `A=1000, B=0, M=0`, transfer of 100 with tip 10 and gas 5,
mined by `M`, gives success and `A={885,1}`, `B={100,0}`, `M={15,0}`. -/
theorem applyTransaction_success_matches_spec_steps_witness :
    (applyTransaction 1 exS0 blkBenM txTransfer).2 = none ∧
      (applyTransaction 1 exS0 blkBenM txTransfer).1 "A" = ⟨885, 1⟩ ∧
      (applyTransaction 1 exS0 blkBenM txTransfer).1 "B" = ⟨100, 0⟩ ∧
      (applyTransaction 1 exS0 blkBenM txTransfer).1 "M" = ⟨15, 0⟩ := by
  have h := applyTransaction_success_matches_spec_steps 1 exS0 blkBenM txTransfer
    "A" rfl (by decide) (by decide) rfl (by decide) (by decide) (by decide)
    (by decide) (by decide) (by decide) (by decide) (by decide) (by decide)
  exact ⟨h.1, (h.2 "A").trans (by decide), (h.2 "B").trans (by decide),
    (h.2 "M").trans (by decide)⟩

/-- Counterexample for C1: in the pre-state `A=1000` with the scenario-2
transaction mined by `A` itself, all four accounting checks pass and the
call succeeds, but the code leaves `A = {1015, 0}` (the stale beneficiary
write wins) while the spec's steps give `A = {900, 1}`. -/
theorem applyTransaction_beneficiary_alias_breaks_spec_steps :
    (applyTransaction 1 exS0 blkBenA txTransfer).2 = none ∧
      (applyTransaction 1 exS0 blkBenA txTransfer).1 "A" = ⟨1015, 0⟩ ∧
      specApplySteps exS0 "A" blkBenA txTransfer "A" = ⟨900, 1⟩ := by
  exact ⟨by decide, by decide, by decide⟩

/-- No account's stored nonce ever decreases across a single
`applyTransaction` call (error or success, aliasing included). -/
theorem apply_nonce_mono (cid : Nat) (m : Accounts) (blk : Block) (tx : BlockTx)
    (id : AccountID) :
    (m id).nonce ≤ ((applyTransaction cid m blk tx).1 id).nonce := by
  cases hsig : tx.fromSig with
  | none => rw [apply_sig_fail hsig]
  | some fromID =>
    rcases herr : (applyTransaction cid m blk tx).2 with _ | e
    · obtain ⟨hc, hs, hn, hf1, hf2, heq⟩ := apply_success_conditions hsig herr
      rw [heq]
      dsimp only
      simp only [succState, gasState, upd]
      split_ifs with h1 h2 h3 <;> simp_all
      omega
    · rw [apply_error_state hsig herr]
      simp only [gasState, upd]
      split_ifs <;> simp_all

/-- No account's stored nonce ever decreases across a replayed list of
transactions. -/
theorem applyList_nonce_mono (cid : Nat) (m : Accounts)
    (l : List (Block × BlockTx)) (id : AccountID) :
    (m id).nonce ≤ ((applyList cid m l) id).nonce := by
  induction l generalizing m with
  | nil => exact le_refl _
  | cons p rest ih =>
    rcases p with ⟨blk, tx⟩
    exact le_trans (apply_nonce_mono cid m blk tx id)
      (ih ((applyTransaction cid m blk tx).1))

/-- A successful transaction whose block beneficiary is not the sender
records `tx.Nonce` as the sender's stored nonce, and that nonce strictly
exceeds the sender's previous stored nonce. -/
theorem apply_success_sender_nonce {cid : Nat} {m : Accounts} {blk : Block}
    {tx : BlockTx} {fromID : AccountID} (hsig : tx.fromSig = some fromID)
    (hbf : blk.header.beneficiaryID ≠ fromID)
    (hok : (applyTransaction cid m blk tx).2 = none) :
    ((applyTransaction cid m blk tx).1 fromID).nonce = tx.nonce ∧
      (m fromID).nonce < tx.nonce := by
  obtain ⟨hc, hs, hn, hf1, hf2, heq⟩ := apply_success_conditions hsig hok
  rw [heq]
  dsimp only
  rw [succState, upd_other _ _ _ (Ne.symm hbf), upd_other _ _ _ hs, upd_self]
  exact ⟨rfl, hn⟩

/-- A transaction whose nonce does not exceed the sender's stored nonce
can never be applied successfully. -/
theorem apply_stale_nonce_fails {cid : Nat} {m : Accounts} {blk : Block}
    {tx : BlockTx} {fromID : AccountID} (hsig : tx.fromSig = some fromID)
    (hn : tx.nonce ≤ (m fromID).nonce) :
    (applyTransaction cid m blk tx).2 ≠ none := by
  intro hok
  obtain ⟨_, _, hn2, _, _, _⟩ := apply_success_conditions hsig hok
  omega

/-- C4 (amended): provided the successful transaction's block beneficiary
is not the sender itself, the sender's stored nonce is set to `tx.Nonce`,
which strictly exceeds its previous stored nonce, and since stored nonces
never decrease, no later transaction from the same account with a nonce
`≤ tx.Nonce` can ever be applied successfully, regardless of the
transactions applied in between. -/
theorem applyTransaction_nonce_strictly_increases (cid : Nat) (m : Accounts)
    (blk : Block) (tx : BlockTx) (fromID : AccountID)
    (hsig : tx.fromSig = some fromID)
    (hbf : blk.header.beneficiaryID ≠ fromID)
    (hok : (applyTransaction cid m blk tx).2 = none)
    (l : List (Block × BlockTx)) (blk2 : Block) (tx2 : BlockTx)
    (hsig2 : tx2.fromSig = some fromID) (hn2 : tx2.nonce ≤ tx.nonce) :
    (applyTransaction cid
        (applyList cid ((applyTransaction cid m blk tx).1) l) blk2 tx2).2 ≠
      none := by
  obtain ⟨hset, hlt⟩ := apply_success_sender_nonce hsig hbf hok
  have hmono :=
    applyList_nonce_mono cid ((applyTransaction cid m blk tx).1) l fromID
  apply apply_stale_nonce_fails hsig2
  omega

/-- Witness for C4: after `A` successfully applies a nonce-2 transaction
(mined by `M`), re-submitting the same nonce fails. -/
theorem applyTransaction_nonce_strictly_increases_witness :
    (applyTransaction 1 exS0 blkBenM txNonce2).2 = none ∧
      (applyTransaction 1
          (applyList 1 ((applyTransaction 1 exS0 blkBenM txNonce2).1) [])
          blkBenM txNonce2).2 ≠ none := by
  refine ⟨by decide, ?_⟩
  exact applyTransaction_nonce_strictly_increases 1 exS0 blkBenM txNonce2 "A" rfl
    (by decide) (by decide) [] blkBenM txNonce2 rfl (by decide)

/-- Counterexample for C4: when a successful transaction's block is mined
by the sender itself, the stale beneficiary write drops the sender's
nonce update, so the very same nonce-1 transaction can be applied
successfully twice in a row. -/
theorem applyTransaction_alias_allows_nonce_replay :
    txTransfer.nonce = 1 ∧
      (applyTransaction 1 exS0 blkBenA txTransfer).2 = none ∧
      (applyTransaction 1 (applyTransaction 1 exS0 blkBenA txTransfer).1
          blkBenM txTransfer).2 = none := by
  exact ⟨by decide, by decide, by decide⟩

/-- The exact-integer gas-charge state is pointwise nonnegative. -/
theorem gasStateZ_nonneg {mz : AccountsZ} {fromID bnfcID : AccountID} {g : Int}
    (hm : ∀ id, 0 ≤ (mz id).balance) (h0 : 0 ≤ g)
    (hle : g ≤ (mz fromID).balance) (id : AccountID) :
    0 ≤ ((gasStateZ mz fromID bnfcID g) id).balance := by
  have h1 := hm id
  have h2 := hm bnfcID
  have h3 := hm fromID
  simp only [gasStateZ, updZ]
  split_ifs <;> (try dsimp only) <;> omega

/-- The exact-integer success state is pointwise nonnegative. -/
theorem succStateZ_nonneg {mz : AccountsZ} {fromID bnfcID : AccountID}
    {tx : BlockTx} {g : Int} (hm : ∀ id, 0 ≤ (mz id).balance) (h0 : 0 ≤ g)
    (hle : g ≤ (mz fromID).balance)
    (hvt : (tx.value : Int) + (tx.tip : Int) ≤ (mz fromID).balance - g)
    (id : AccountID) :
    0 ≤ ((succStateZ mz fromID bnfcID tx g) id).balance := by
  have h1 := hm id
  have h2 := hm bnfcID
  have h3 := hm tx.toID
  have h4 : (0 : Int) ≤ (tx.value : Int) := Int.natCast_nonneg _
  have h5 : (0 : Int) ≤ (tx.tip : Int) := Int.natCast_nonneg _
  have h6 := hm fromID
  simp only [succStateZ, gasStateZ, updZ]
  split_ifs <;> (try dsimp only) <;> omega

/-- Over in-range inputs, the exact gas fee is the cast of the `uint64`
gas fee. -/
theorem gasFeeZ_cast {m : Accounts} {fromID : AccountID} {tx : BlockTx}
    (hg : tx.gasPrice * tx.gasUnits < W) :
    gasFeeZ (fun i => (m i).toZ) fromID tx = (gasFee64 m fromID tx : Int) := by
  have hcast : ((tx.gasPrice * tx.gasUnits : Nat) : Int) =
      (tx.gasPrice : Int) * (tx.gasUnits : Int) := by push_cast; ring
  rw [gasFeeZ, gasFee64, mul64_eq hg, ← hcast]
  simp only [Account.toZ]
  split_ifs with h1 h2 <;> omega

/-- Over in-range inputs, the exact gas-charge state is the pointwise
cast of the `uint64` gas-charge state. -/
theorem gasState_toZ {m : Accounts} {fromID bnfcID : AccountID} {g : Nat}
    (hgle : g ≤ (m fromID).balance) (hbw : (m bnfcID).balance + g < W)
    (id : AccountID) :
    gasStateZ (fun i => (m i).toZ) fromID bnfcID (g : Int) id =
      ((gasState m fromID bnfcID g) id).toZ := by
  simp only [gasStateZ, gasState, updZ, upd, add64_eq hbw, Account.toZ]
  split_ifs
  · simp only [AccountZ.mk.injEq]
    exact ⟨by omega, trivial⟩
  · simp only [AccountZ.mk.injEq]
    exact ⟨by omega, trivial⟩
  · rfl

/-- Over in-range inputs, the exact success state is the pointwise cast
of the `uint64` success state. -/
theorem succState_toZ {m : Accounts} {fromID bnfcID : AccountID} {tx : BlockTx}
    {g : Nat} (hgle : g ≤ (m fromID).balance) (hfW : (m fromID).balance < W)
    (hvt : tx.value + tx.tip ≤ (m fromID).balance - g)
    (htoW : (m tx.toID).balance + tx.value < W)
    (hbw : (m bnfcID).balance + g + tx.tip < W) (id : AccountID) :
    succStateZ (fun i => (m i).toZ) fromID bnfcID tx (g : Int) id =
      ((succState m fromID bnfcID tx g) id).toZ := by
  have e1 : sub64 ((m fromID).balance - g) tx.value =
      (m fromID).balance - g - tx.value := sub64_eq (by omega) (by omega)
  have e2 : sub64 ((m fromID).balance - g - tx.value) tx.tip =
      (m fromID).balance - g - tx.value - tx.tip := sub64_eq (by omega) (by omega)
  have e3 : add64 (m tx.toID).balance tx.value =
      (m tx.toID).balance + tx.value := add64_eq (by omega)
  have e4 : add64 (m bnfcID).balance g = (m bnfcID).balance + g :=
    add64_eq (by omega)
  have e5 : add64 ((m bnfcID).balance + g) tx.tip =
      (m bnfcID).balance + g + tx.tip := add64_eq (by omega)
  simp only [succStateZ, succState, gasStateZ, gasState, updZ, upd, e1, e2, e3,
    e4, e5, Account.toZ]
  split_ifs
  · simp only [AccountZ.mk.injEq]
    exact ⟨by omega, trivial⟩
  · simp only [AccountZ.mk.injEq]
    exact ⟨by omega, trivial⟩
  · simp only [AccountZ.mk.injEq]
    exact ⟨by omega, trivial⟩
  · rfl

/-- C5 (amended): with all arithmetic read as exact (unbounded) integers
— `applyTransactionExact` — no account's balance is ever negative after
`ApplyTransaction`, for every input (the gas clamp and the funds check
guarantee it); and whenever `tx.GasPrice * tx.GasUnits`,
`tx.Value + tx.Tip`, and the credited balances stay below `2^64`, the
`uint64` implementation returns the same error and the same balances as
the exact reading, i.e. no `uint64` operation wraps.  For values whose
products or sums exceed `2^64 - 1` the `uint64` subtractions and
additions do wrap and the implementation diverges from the exact
reading. -/
theorem applyTransaction_exact_nonneg_and_agreement :
    (∀ (cid : Nat) (mz : AccountsZ) (blk : Block) (tx : BlockTx),
        (∀ id, 0 ≤ (mz id).balance) →
        ∀ id, 0 ≤ ((applyTransactionExact cid mz blk tx).1 id).balance) ∧
    (∀ (cid : Nat) (m : Accounts) (blk : Block) (tx : BlockTx)
        (fromID : AccountID),
        tx.fromSig = some fromID →
        tx.gasPrice * tx.gasUnits < W →
        tx.value + tx.tip < W →
        (m fromID).balance < W →
        (m tx.toID).balance + tx.value < W →
        (m blk.header.beneficiaryID).balance + gasFee64 m fromID tx + tx.tip < W →
        (applyTransactionExact cid (fun i => (m i).toZ) blk tx).2 =
            (applyTransaction cid m blk tx).2 ∧
          ∀ id, (applyTransactionExact cid (fun i => (m i).toZ) blk tx).1 id =
            ((applyTransaction cid m blk tx).1 id).toZ) := by
  constructor
  · intro cid mz blk tx hm id
    cases hsig : tx.fromSig with
    | none => rw [applyZ_sig_fail hsig]; exact hm id
    | some fromID =>
      have hgf0 : (0 : Int) ≤ (tx.gasPrice : Int) * (tx.gasUnits : Int) :=
        mul_nonneg (Int.natCast_nonneg _) (Int.natCast_nonneg _)
      have hfb := hm fromID
      have hkey : 0 ≤ gasFeeZ mz fromID tx ∧
          gasFeeZ mz fromID tx ≤ (mz fromID).balance := by
        rw [gasFeeZ]
        split_ifs with h <;> omega
      by_cases hc : tx.chainID = cid
      · by_cases hs : fromID = tx.toID
        · rw [applyZ_self_transfer hsig hc hs]
          exact gasStateZ_nonneg hm hkey.1 hkey.2 id
        · by_cases hn : tx.nonce ≤ (mz fromID).nonce
          · rw [applyZ_nonce_too_small hsig hc hs hn]
            exact gasStateZ_nonneg hm hkey.1 hkey.2 id
          · push_neg at hn
            by_cases hf : (mz fromID).balance - gasFeeZ mz fromID tx = 0 ∨
                (mz fromID).balance - gasFeeZ mz fromID tx <
                  (tx.value : Int) + (tx.tip : Int)
            · rw [applyZ_insufficient hsig hc hs hn hf]
              exact gasStateZ_nonneg hm hkey.1 hkey.2 id
            · push_neg at hf
              rw [applyZ_success hsig hc hs hn hf.1 hf.2]
              exact succStateZ_nonneg hm hkey.1 hkey.2 hf.2 id
      · rw [applyZ_wrong_chain hsig hc]
        exact gasStateZ_nonneg hm hkey.1 hkey.2 id
  · intro cid m blk tx fromID hsig hg hvt hfW htoW hbnW
    have hgle := gasFee64_le m fromID tx
    have hgz : gasFeeZ (fun i => (m i).toZ) fromID tx =
        (gasFee64 m fromID tx : Int) := gasFeeZ_cast hg
    have hbw : (m blk.header.beneficiaryID).balance + gasFee64 m fromID tx < W :=
      by omega
    have hf1z : (Account.toZ (m fromID)).balance -
        gasFeeZ (fun i => (m i).toZ) fromID tx =
        (((m fromID).balance - gasFee64 m fromID tx : Nat) : Int) := by
      rw [hgz]
      simp only [Account.toZ]
      omega
    by_cases hc : tx.chainID = cid
    · by_cases hs : fromID = tx.toID
      · rw [apply_self_transfer hsig hc hs, applyZ_self_transfer hsig hc hs, hgz]
        exact ⟨rfl, gasState_toZ hgle hbw⟩
      · by_cases hn : tx.nonce ≤ (m fromID).nonce
        · rw [apply_nonce_too_small hsig hc hs hn,
            applyZ_nonce_too_small hsig hc hs hn, hgz]
          exact ⟨rfl, gasState_toZ hgle hbw⟩
        · push_neg at hn
          by_cases hf : (m fromID).balance - gasFee64 m fromID tx = 0 ∨
              (m fromID).balance - gasFee64 m fromID tx < add64 tx.value tx.tip
          · have hfz : (Account.toZ (m fromID)).balance -
                gasFeeZ (fun i => (m i).toZ) fromID tx = 0 ∨
                (Account.toZ (m fromID)).balance -
                  gasFeeZ (fun i => (m i).toZ) fromID tx <
                  (tx.value : Int) + (tx.tip : Int) := by
              rw [add64_eq hvt] at hf
              rw [hf1z]
              rcases hf with hf | hf
              · left; omega
              · right; omega
            rw [apply_insufficient hsig hc hs hn hf,
              applyZ_insufficient hsig hc hs hn hfz, hgz]
            exact ⟨rfl, gasState_toZ hgle hbw⟩
          · push_neg at hf
            rw [add64_eq hvt] at hf
            have hfz1 : (Account.toZ (m fromID)).balance -
                gasFeeZ (fun i => (m i).toZ) fromID tx ≠ 0 := by
              rw [hf1z]
              have := hf.1
              omega
            have hfz2 : (tx.value : Int) + (tx.tip : Int) ≤
                (Account.toZ (m fromID)).balance -
                  gasFeeZ (fun i => (m i).toZ) fromID tx := by
              rw [hf1z]
              have := hf.2
              omega
            have hfnat : (m fromID).balance - gasFee64 m fromID tx ≠ 0 := hf.1
            have hfnat2 : add64 tx.value tx.tip ≤
                (m fromID).balance - gasFee64 m fromID tx := by
              rw [add64_eq hvt]; exact hf.2
            rw [apply_success hsig hc hs hn hfnat hfnat2,
              applyZ_success hsig hc hs hn hfz1 hfz2, hgz]
            exact ⟨rfl, succState_toZ hgle hfW hf.2 htoW hbnW⟩
    · rw [apply_wrong_chain hsig hc, applyZ_wrong_chain hsig hc, hgz]
      exact ⟨rfl, gasState_toZ hgle hbw⟩

/-- Witness for C5: both parts instantiated at the scenario-2 transfer,
where the exact semantics keeps `A` nonnegative and agrees with the
`uint64` implementation. -/
theorem applyTransaction_exact_nonneg_and_agreement_witness :
    0 ≤ ((applyTransactionExact 1 (fun i => (exS0 i).toZ) blkBenM
        txTransfer).1 "A").balance ∧
      (applyTransactionExact 1 (fun i => (exS0 i).toZ) blkBenM txTransfer).2 =
        (applyTransaction 1 exS0 blkBenM txTransfer).2 ∧
      (applyTransactionExact 1 (fun i => (exS0 i).toZ) blkBenM txTransfer).1 "A" =
        ((applyTransaction 1 exS0 blkBenM txTransfer).1 "A").toZ := by
  have h2 := applyTransaction_exact_nonneg_and_agreement.2 1 exS0 blkBenM
    txTransfer "A" rfl (by decide) (by decide) (by decide) (by decide) (by decide)
  exact ⟨applyTransaction_exact_nonneg_and_agreement.1 1 (fun i => (exS0 i).toZ)
      blkBenM txTransfer (fun id => Int.natCast_nonneg _) "A",
    h2.1, h2.2 "A"⟩

/-- Counterexample for C5: with `A = 5` and `tx {Value = 2^64 - 1,
Tip = 1}` the `uint64` sum `Value + Tip` wraps to 0, the funds check
passes, and the subtraction wraps: the call succeeds with `A` still at 5,
while the exact (unbounded) reading of the same code rejects the
transaction as insufficient funds — so the claim's "no uint64 operation
wraps for all values" fails. -/
theorem applyTransaction_uint64_wraps_on_overflow :
    (applyTransaction 1 exS5 blkBenM txOverflow).2 = none ∧
      ((applyTransaction 1 exS5 blkBenM txOverflow).1 "A").balance = 5 ∧
      (applyTransactionExact 1 (fun i => (exS5 i).toZ) blkBenM txOverflow).2 =
        some TxErr.insufficientFunds := by
  exact ⟨by decide, by decide, by decide⟩

/-- An iterator error surfacing after a valid error-free prefix makes the
read loop return that error. -/
theorem readAllBlocksAux_next_error (vb : Block → Block → Option String) :
    ∀ (latest : Block) (blocks : List Block) (b : Block) (msg : String)
      (rest : List (Block × Option String)),
    chainValid vb latest blocks = true →
    readAllBlocksAux vb true latest
      ((blocks.map fun x => (x, none)) ++ (b, some msg) :: rest) = .error msg := by
  intro latest blocks
  induction blocks generalizing latest with
  | nil => intro b msg rest _; rfl
  | cons hd tl ih =>
    intro b msg rest hcv
    rw [chainValid] at hcv
    cases hvb : vb hd latest with
    | some m2 => rw [hvb] at hcv; cases hcv
    | none =>
      rw [hvb] at hcv
      simp only [List.map_cons, List.cons_append, readAllBlocksAux, hvb]
      simp [ih hd b msg rest hcv]
      rfl

/-- A block failing validation after a valid error-free prefix makes the
read loop return the validation error. -/
theorem readAllBlocksAux_validation_error (vb : Block → Block → Option String) :
    ∀ (latest : Block) (blocks : List Block) (b : Block) (msg : String)
      (rest : List (Block × Option String)),
    chainValid vb latest blocks = true →
    vb b (blocks.getLastD latest) = some msg →
    readAllBlocksAux vb true latest
      ((blocks.map fun x => (x, none)) ++ (b, none) :: rest) = .error msg := by
  intro latest blocks
  induction blocks generalizing latest with
  | nil =>
    intro b msg rest _ hvb
    simp only [List.getLastD] at hvb
    simp [readAllBlocksAux, hvb]
  | cons hd tl ih =>
    intro b msg rest hcv hvb
    rw [chainValid] at hcv
    cases hvh : vb hd latest with
    | some m2 => rw [hvh] at hcv; cases hcv
    | none =>
      rw [hvh] at hcv
      rw [List.getLastD_cons] at hvb
      simp only [List.map_cons, List.cons_append, readAllBlocksAux, hvh]
      simp [ih hd b msg rest hcv hvb]
      rfl

/-- C7 (amended): during startup, an error from the storage iterator's
`Next` or a block-validation error from `ValidateBlock` makes
`Database.New` return that error and abort; but an error from
`ApplyTransaction` during the replay of a stored block's transactions is
silently discarded (database.go line 76 ignores the return value) and
`New` still succeeds. -/
theorem newDB_aborts_on_read_errors_ignores_apply_errors :
    (∀ (gen : Genesis) (vb : Block → Block → Option String)
        (blocks : List Block) (b : Block) (msg : String)
        (rest : List (Block × Option String)),
        chainValid vb Block.zero blocks = true →
        NewDB gen vb ((blocks.map fun x => (x, none)) ++ (b, some msg) :: rest) =
          .error msg) ∧
    (∀ (gen : Genesis) (vb : Block → Block → Option String)
        (blocks : List Block) (b : Block) (msg : String)
        (rest : List (Block × Option String)),
        chainValid vb Block.zero blocks = true →
        vb b (blocks.getLastD Block.zero) = some msg →
        NewDB gen vb ((blocks.map fun x => (x, none)) ++ (b, none) :: rest) =
          .error msg) ∧
    (∀ (gen : Genesis) (vb : Block → Block → Option String)
        (blocks : List Block),
        chainValid vb Block.zero blocks = true →
        (NewDB gen vb (blocks.map fun x => (x, none))).isOk = true) := by
  refine ⟨?_, ?_, ?_⟩
  · intro gen vb blocks b msg rest hcv
    rw [NewDB, readAllBlocks, readAllBlocksAux_next_error vb Block.zero blocks
      b msg rest hcv]
  · intro gen vb blocks b msg rest hcv hvb
    rw [NewDB, readAllBlocks, readAllBlocksAux_validation_error vb Block.zero
      blocks b msg rest hcv hvb]
  · intro gen vb blocks hcv
    rw [NewDB, readAllBlocks,
      readAllBlocksAux_no_err vb true Block.zero blocks (fun _ => hcv)]
    rfl

/-- Witness for C7: a concrete iterator error aborts `New` with that
error, and a stored chain whose single block replays with a failing
transaction still starts up. -/
theorem newDB_aborts_on_read_errors_ignores_apply_errors_witness :
    NewDB genA (fun _ _ => none) [(Block.zero, some "disk fault")] =
        .error "disk fault" ∧
      (NewDB genA (fun _ _ => none) [(blkStaleTx, none)]).isOk = true := by
  constructor
  · have h := newDB_aborts_on_read_errors_ignores_apply_errors.1 genA
      (fun _ _ => none) [] Block.zero "disk fault" [] rfl
    simpa using h
  · have h := newDB_aborts_on_read_errors_ignores_apply_errors.2.2 genA
      (fun _ _ => none) [blkStaleTx] rfl
    simpa using h

/-- Counterexample for C7: replaying the stored block `blkStaleTx` makes
`ApplyTransaction` fail with `nonceTooSmall`, yet `Database.New` returns
success — the replay loop drops the error. -/
theorem newDB_ignores_apply_transaction_error :
    (applyTransaction 1 (seedGenesis genA (fun _ => Account.zero)) blkStaleTx
        txNonceZero).2 = some TxErr.nonceTooSmall ∧
      (NewDB genA (fun _ _ => none) [(blkStaleTx, none)]).isOk = true := by
  exact ⟨by decide, by decide⟩

end Blockchain
